import Mathlib

/-!
Verification of the math-parser repository: a shallow embedding of the
scanner (scan.py), parser (parse.py), expression-tree model (models.py)
and the parse_text facade (mathparser.py), with theorems settling the
specification claims. Real numbers of the source (Python floats) are
modelled as exact rationals; Python exceptions are modelled by an
explicit error type threaded through `Except`.
-/

/-- The lexical tokens of scan.py: operator tokens, brackets, numeric
literals and identifier characters. -/
inductive Token where
  | Plus
  | Minus
  | Multiply
  | Divide
  | Exponent
  | Numeric (num : Rat)
  | Char (name : String)
  | OpenBracket
  | CloseBracket
  deriving DecidableEq, Repr

/-- The Python exceptions the repository can raise, as an explicit error
type: ValueError (from float() in the scanner and from the parser),
ZeroDivisionError (quotient evaluation), KeyError (missing unknown in the
substitution map) and NotImplementedError (unsupported differentiation).
`outOfFuel` is an artifact of making the recursive-descent parser total;
it is never produced for the fuel supplied by `parseTokens` on the inputs
used here. -/
inductive PyError where
  | valueError (msg : String)
  | zeroDivisionError
  | keyError (name : String)
  | notImplementedError
  | outOfFuel
  deriving DecidableEq, Repr

/-- Python str.isnumeric, modelled on the character repertoire this
development manipulates: the ASCII digits together with the superscript
digits that the formatter of models.py can emit (both are isnumeric in
Python; superscript digits are not accepted by float()). On ASCII input
this definition agrees with Python exactly (the only ASCII numerics are
the digits). Python's wider Unicode numeric repertoire (vulgar
fractions, CJK numerals, Roman numerals, ...) is not modelled — on such
characters Scanner.number's float() raises where this model skips — so
every theorem below that asserts the scanner cannot fail restricts its
input to ASCII, where the model is faithful. -/
def pyIsNumeric (c : Char) : Bool :=
  c.isDigit || ['⁰', '¹', '²', '³', '⁴', '⁵', '⁶', '⁷', '⁸', '⁹'].contains c

/-- The continuation predicate of Scanner.number and consume_numeric:
keep consuming while the character is numeric or a decimal point. -/
def numDot (c : Char) : Bool :=
  pyIsNumeric c || c == '.'

/-- Digit run to natural number (helper for the float conversion). -/
def digitsToNat (ds : List Char) : Nat :=
  ds.foldl (fun a c => a * 10 + (c.toNat - 48)) 0

/-- Python float() applied to the runs the scanner consumes (a string of
numeric characters and dots beginning with a numeric character): it
succeeds exactly on nonempty strings of ASCII digits with at most one
decimal point and at least one digit, and fails (ValueError) otherwise —
in particular on a second decimal point and on superscript digits. The
value is the exact rational the decimal numeral denotes. -/
def pyFloat (cs : List Char) : Option Rat :=
  if !cs.isEmpty && cs.all (fun c => c.isDigit || c == '.')
      && cs.count '.' ≤ 1 && cs.any Char.isDigit then
    let ip := cs.takeWhile (fun c => c != '.')
    let fp := (cs.dropWhile (fun c => c != '.')).drop 1
    some (mkRat (digitsToNat ip * 10 ^ fp.length + digitsToNat fp) (10 ^ fp.length))
  else
    none

/-- Dropping a prefix never lengthens a list (fuel-sufficiency helper for
the scanner's numeric-run consumption). -/
theorem dropWhile_length_le {α : Type} (p : α → Bool) :
    ∀ l : List α, (l.dropWhile p).length ≤ l.length
  | [] => Nat.le_refl _
  | a :: l => by
    rw [List.dropWhile_cons]
    split
    · exact Nat.le_succ_of_le (dropWhile_length_le p l)
    · exact Nat.le_refl _

/-- The scanning loop of Scanner.scan_tokens / scan_token: a single
left-to-right pass. Single characters map to operator and bracket
tokens; a numeric character starts a numeric run consumed by
Scanner.number and converted with float() (which can raise ValueError);
a letter emits a Char token holding exactly that one letter (char() slices
text[_start:_current], which is the single advanced character);
whitespace and unrecognized characters are skipped. Python's isalpha is
modelled by ASCII Char.isAlpha and isnumeric by pyIsNumeric, so the loop
is faithful on ASCII input plus the formatter's superscript digits and
bullet separator; theorems asserting the scanner cannot fail therefore
restrict their input to ASCII. The fuel argument makes the recursion
structural; each step consumes at least one input character, so the fuel
`scan_tokens` supplies never runs out (scanAux_ok_of_good_runs below
exhibits a successful scan whenever the numeric runs are well-formed). -/
def scanAux : Nat → List Char → Except PyError (List Token)
  | 0, _ => throw PyError.outOfFuel
  | _, [] => pure []
  | fuel + 1, c :: rest =>
    if c = '(' then (Token.OpenBracket :: ·) <$> scanAux fuel rest
    else if c = ')' then (Token.CloseBracket :: ·) <$> scanAux fuel rest
    else if c = '+' then (Token.Plus :: ·) <$> scanAux fuel rest
    else if c = '-' then (Token.Minus :: ·) <$> scanAux fuel rest
    else if c = '*' then (Token.Multiply :: ·) <$> scanAux fuel rest
    else if c = '/' then (Token.Divide :: ·) <$> scanAux fuel rest
    else if c = '^' then (Token.Exponent :: ·) <$> scanAux fuel rest
    else if pyIsNumeric c then
      match pyFloat (c :: rest.takeWhile numDot) with
      | some q => (Token.Numeric q :: ·) <$> scanAux fuel (rest.dropWhile numDot)
      | none => throw (PyError.valueError "could not convert string to float")
    else if c.isAlpha then (Token.Char (String.mk [c]) :: ·) <$> scanAux fuel rest
    else scanAux fuel rest

/-- The guard of the implicit-multiplication insertion pass of
Scanner.scan_tokens: a Multiply token is inserted between `prev` and the
current token exactly for the pairs of the source's match statement
(prev is None before the first token, and then never matches). -/
def shouldInsertMul : Option Token → Token → Bool
  | some (Token.Numeric _), Token.Char _ => true
  | some (Token.Numeric _), Token.OpenBracket => true
  | some (Token.Char _), Token.OpenBracket => true
  | some Token.CloseBracket, Token.Char _ => true
  | some Token.CloseBracket, Token.OpenBracket => true
  | _, _ => false

/-- The loop of the insertion pass: walk the raw token list carrying the
previous token, prepending a Multiply token whenever the pair matches. -/
def insertPassGo : Option Token → List Token → List Token
  | _, [] => []
  | prev, t :: rest =>
    (if shouldInsertMul prev t then [Token.Multiply, t] else [t]) ++ insertPassGo (some t) rest

/-- The implicit-multiplication post-pass of Scanner.scan_tokens (prev
starts as None). -/
def insertPass (ts : List Token) : List Token :=
  insertPassGo none ts

/-- Scanner(text).scan_tokens(): raw scan followed by the
implicit-multiplication insertion pass. -/
def scan_tokens (text : String) : Except PyError (List Token) :=
  insertPass <$> scanAux (text.data.length + 1) text.data

/-- The expression-tree model of models.py: one constructor per class.
Subtraction is its own constructor (the source subclass has its own
identity: dataclass equality distinguishes Subtraction from Addition).
Python float payloads are modelled as exact rationals. -/
inductive MathExpression where
  | Constant (num : Rat)
  | Unknown (char : String)
  | Addition (left right : MathExpression)
  | Subtraction (left right : MathExpression)
  | Product (left right : MathExpression)
  | Quotient (numer denom : MathExpression)
  | Power (base power : MathExpression)
  deriving DecidableEq, Repr

open MathExpression in
/-- MathExpression.evaluate of models.py. The substitution dictionary is a
partial map; a missing name is Python's KeyError. Children are evaluated
left to right before the arithmetic operator is applied. A Quotient whose
denominator evaluates to 0 raises ZeroDivisionError, exactly as Python's
`/` on numbers does. Power mirrors Python `**` on the rational values this
development uses: an integer exponent is exact integer power (with
ZeroDivisionError on 0 ** negative); a non-integer exponent is real-valued
floating-point behavior outside the rational model and is not reached by
any theorem below. -/
def evaluate : MathExpression → (String → Option Rat) → Except PyError Rat
  | Constant n, _ => pure n
  | Unknown c, m =>
    match m c with
    | some v => pure v
    | none => throw (PyError.keyError c)
  | Addition l r, m => do pure ((← evaluate l m) + (← evaluate r m))
  | Subtraction l r, m => do pure ((← evaluate l m) - (← evaluate r m))
  | Product l r, m => do pure ((← evaluate l m) * (← evaluate r m))
  | MathExpression.Quotient n d, m => do
    let vn ← evaluate n m
    let vd ← evaluate d m
    if vd = 0 then throw PyError.zeroDivisionError else pure (vn / vd)
  | Power b p, m => do
    let vb ← evaluate b m
    let vp ← evaluate p m
    if vp.den = 1 then
      if vb = 0 ∧ vp.num < 0 then throw PyError.zeroDivisionError
      else pure (vb ^ vp.num)
    else throw (PyError.valueError "non-integer power outside rational model")

open MathExpression in
/-- MathExpression.differentiate of models.py. Power differentiates by
the source's match statement: both children Constant gives Constant 0; a
Constant exponent n gives n * base ^ (n-1) * base.differentiate() grouped
exactly as the source builds it; any other exponent raises
NotImplementedError. -/
def differentiate : MathExpression → Except PyError MathExpression
  | Constant _ => pure (Constant 0)
  | Unknown _ => pure (Constant 1)
  | Addition l r => do pure (Addition (← differentiate l) (← differentiate r))
  | Subtraction l r => do pure (Subtraction (← differentiate l) (← differentiate r))
  | Product l r => do
    pure (Addition (Product (← differentiate l) r) (Product l (← differentiate r)))
  | MathExpression.Quotient n d => do
    pure (Quotient
      (Subtraction (Product d (← differentiate n)) (Product n (← differentiate d)))
      (Power d (Constant 2)))
  | Power b p =>
    match b, p with
    | Constant _, Constant _ => pure (Constant 0)
    | x, Constant n => do
      pure (Product (Product (Constant n) (Power x (Constant (n - 1)))) (← differentiate x))
    | _, _ => throw PyError.notImplementedError

open MathExpression in
/-- Addition Subtraction sum_simplify of models.py: drop an operand equal
to Constant 0, no result otherwise (the implicit Python None). -/
def sum_simplify (a b : MathExpression) : Option MathExpression :=
  if a = Constant 0 then some b
  else if b = Constant 0 then some a
  else none

open MathExpression in
/-- One local rewriting pass, the per-class method the source spells
underscore-simplify: simplify children first, then apply the node's own
rule. Quotient compares its unsimplified children for the collapse to
Constant 1, and Power leaves its exponent untouched, both exactly as in
models.py. -/
def simplifyStep : MathExpression → MathExpression
  | Constant n => Constant n
  | Unknown c => Unknown c
  | Addition l r =>
    let a := simplifyStep l
    let b := simplifyStep r
    match sum_simplify a b with
    | some s => s
    | none => Addition a b
  | Subtraction l r =>
    let a := simplifyStep l
    let b := simplifyStep r
    if a = b then Constant 0
    else
      match sum_simplify a b with
      | some s => s
      | none => Subtraction a b
  | Product l r =>
    let a := simplifyStep l
    let b := simplifyStep r
    if a = Constant 0 ∨ b = Constant 0 then Constant 0
    else if a = Constant 1 then b
    else if b = Constant 1 then a
    else Product a b
  | MathExpression.Quotient n d =>
    if n = d then Constant 1
    else Quotient (simplifyStep n) (simplifyStep d)
  | Power b p =>
    if p = Constant 1 then simplifyStep b
    else Power (simplifyStep b) p

/-- Node count of an expression tree (the termination measure for the
simplification fixed-point loop). -/
def exprSize : MathExpression → Nat
  | .Constant _ => 1
  | .Unknown _ => 1
  | .Addition l r => 1 + exprSize l + exprSize r
  | .Subtraction l r => 1 + exprSize l + exprSize r
  | .Product l r => 1 + exprSize l + exprSize r
  | .Quotient n d => 1 + exprSize n + exprSize d
  | .Power b p => 1 + exprSize b + exprSize p

/-- The while-not-equal loop of MathExpression.simplify: `a` is the last
iterate, `b` its image under one more pass; stop when they agree. The
fuel argument makes the Python while loop a total function; `simplify`
supplies enough fuel for the loop to reach its fixed point (proved
below). -/
def simplifyLoop : Nat → MathExpression → MathExpression → MathExpression
  | 0, a, _ => a
  | fuel + 1, a, b => if a = b then a else simplifyLoop fuel b (simplifyStep b)

/-- MathExpression.simplify of models.py: iterate the one-step pass until
the tree stops changing (fixed point under structural equality). -/
def simplify (e : MathExpression) : MathExpression :=
  let a := simplifyStep e
  simplifyLoop (exprSize e) a (simplifyStep a)

/-- bracket_wrap of models.py. -/
def bracket_wrap (s : String) : String :=
  "(" ++ s ++ ")"

/-- The SUPERSCRIPTS translation table of models.py: decimal digits map
to superscript digits, every other character is left unchanged (the
behavior of str.translate with that table). -/
def toSuperscript (c : Char) : Char :=
  if c = '0' then '⁰'
  else if c = '1' then '¹'
  else if c = '2' then '²'
  else if c = '3' then '³'
  else if c = '4' then '⁴'
  else if c = '5' then '⁵'
  else if c = '6' then '⁶'
  else if c = '7' then '⁷'
  else if c = '8' then '⁸'
  else if c = '9' then '⁹'
  else c

/-- Decimal digits of a natural number (fuel-indexed so that kernel
reduction is structural). -/
def natDigitsAux : Nat → Nat → List Char
  | 0, _ => []
  | fuel + 1, n =>
    if n < 10 then [Char.ofNat (48 + n)]
    else natDigitsAux fuel (n / 10) ++ [Char.ofNat (48 + n % 10)]

/-- Decimal string of a natural number. -/
def natStr (n : Nat) : String :=
  String.mk (natDigitsAux (n + 1) n)

/-- Decimal string of an integer. -/
def intStr (n : Int) : String :=
  (if n < 0 then "-" else "") ++ natStr n.natAbs

/-- Truncated decimal digits of the fractional part of a rational (helper
for the numeral formatter). -/
def fracDigits : Nat → Rat → List Char
  | 0, _ => []
  | k + 1, r =>
    let d := (r * 10).floor.toNat
    Char.ofNat (48 + d % 10) :: fracDigits k (r * 10 - (r * 10).floor)

/-- Python %g formatting of Constant.num, modelled for the rationals this
development produces: an integer renders as its plain decimal numeral
(%g drops the trailing .0), a non-integer as integer part, point and up
to six fractional digits with trailing zeros trimmed. General %g
rounding of binary floats is outside the rational model. -/
def formatG (q : Rat) : String :=
  if q.den = 1 then intStr q.num
  else
    (if q < 0 then "-" else "") ++ natStr |q|.floor.toNat ++ "." ++
      String.mk (((fracDigits 6 (|q| - |q|.floor)).reverse.dropWhile (· == '0')).reverse)

/-- The needs-bracket predicate, one clause per class exactly as in
models.py: the base class answers false (Constant, Unknown, Power);
Addition — and Subtraction through super() — brackets when there is a
parent whose exact type is not Addition (a Subtraction parent counts as
not-Addition: Python type() equality); Product brackets when there is a
parent that is neither an Addition (including Subtraction instances) nor
a Product; Quotient brackets exactly under a Product or Power parent. -/
def should_bracket_wrap : MathExpression → Option MathExpression → Bool
  | .Addition _ _, parent =>
    match parent with
    | none => false
    | some (.Addition _ _) => false
    | some _ => true
  | .Subtraction _ _, parent =>
    match parent with
    | none => false
    | some (.Addition _ _) => false
    | some _ => true
  | .Product _ _, parent =>
    match parent with
    | none => false
    | some (.Addition _ _) => false
    | some (.Subtraction _ _) => false
    | some (.Product _ _) => false
    | some _ => true
  | MathExpression.Quotient _ _, parent =>
    match parent with
    | some (.Product _ _) => true
    | some (.Power _ _) => true
    | _ => false
  | _, _ => false

/-- MathExpression.format of models.py (with the per-class underscore
format methods inlined at their single call site): render the node, then
bracket-wrap if the needs-bracket predicate answers true against the
parent context. A Power with an integer Constant exponent renders the
exponent as superscript digits; otherwise it renders caret followed by
the formatted exponent. -/
def format (e : MathExpression) (parent : Option MathExpression) : String :=
  let s :=
    match e with
    | .Constant n => formatG n
    | .Unknown c => c
    | .Addition l r => format l (some e) ++ " + " ++ format r (some e)
    | .Subtraction l r => format l (some e) ++ " - " ++ format r (some e)
    | .Product l r => format l (some e) ++ "•" ++ format r (some e)
    | MathExpression.Quotient n d => format n (some e) ++ " / " ++ format d (some e)
    | .Power b p =>
      let sup :=
        match p with
        | .Constant n =>
          if n.den = 1 then String.mk ((intStr n.num).data.map toSuperscript)
          else "^" ++ format p (some e)
        | _ => "^" ++ format p (some e)
      format b (some e) ++ sup
  if should_bracket_wrap e parent then bracket_wrap s else s

/-- build_binary_math_object of parse.py. -/
def build_binary_math_object (left : MathExpression) (operator : Token)
    (right : MathExpression) : Except PyError MathExpression :=
  match operator with
  | Token.Plus => pure (.Addition left right)
  | Token.Minus => pure (.Subtraction left right)
  | Token.Multiply => pure (.Product left right)
  | Token.Divide => pure (MathExpression.Quotient left right)
  | Token.Exponent => pure (.Power left right)
  | _ => throw (PyError.valueError "invalid operator")

mutual

/-- Parser.expression of parse.py: delegate to term. The parser is
embedded as functions from the unconsumed token list to the parsed
expression and the remaining unconsumed tokens; the fuel argument makes
the mutual recursion (primary recurses into expression inside brackets)
structurally total and is never exhausted for the fuel `parseTokens`
supplies on the inputs considered here. -/
def expressionP : Nat → List Token → Except PyError (MathExpression × List Token)
  | 0, _ => throw PyError.outOfFuel
  | fuel + 1, ts => termP fuel ts

/-- Parser.term: a factor followed by a left-folding loop over + and -. -/
def termP : Nat → List Token → Except PyError (MathExpression × List Token)
  | 0, _ => throw PyError.outOfFuel
  | fuel + 1, ts => do
    let (e, ts) ← factorP fuel ts
    termLoop fuel e ts

/-- The while-match(Plus, Minus) loop of Parser.term. -/
def termLoop : Nat → MathExpression → List Token →
    Except PyError (MathExpression × List Token)
  | 0, _, _ => throw PyError.outOfFuel
  | fuel + 1, acc, ts =>
    match ts with
    | op :: rest =>
      if op = Token.Plus ∨ op = Token.Minus then do
        let (r, ts) ← factorP fuel rest
        let acc ← build_binary_math_object acc op r
        termLoop fuel acc ts
      else pure (acc, ts)
    | [] => pure (acc, ts)

/-- Parser.factor: an exponent followed by a left-folding loop over * and /. -/
def factorP : Nat → List Token → Except PyError (MathExpression × List Token)
  | 0, _ => throw PyError.outOfFuel
  | fuel + 1, ts => do
    let (e, ts) ← exponentP fuel ts
    factorLoop fuel e ts

/-- The while-match(Multiply, Divide) loop of Parser.factor. -/
def factorLoop : Nat → MathExpression → List Token →
    Except PyError (MathExpression × List Token)
  | 0, _, _ => throw PyError.outOfFuel
  | fuel + 1, acc, ts =>
    match ts with
    | op :: rest =>
      if op = Token.Multiply ∨ op = Token.Divide then do
        let (r, ts) ← exponentP fuel rest
        let acc ← build_binary_math_object acc op r
        factorLoop fuel acc ts
      else pure (acc, ts)
    | [] => pure (acc, ts)

/-- Parser.exponent: a primary followed by the while-match(Exponent) loop
whose right-hand side recurses into exponent itself, giving
right-associativity. -/
def exponentP : Nat → List Token → Except PyError (MathExpression × List Token)
  | 0, _ => throw PyError.outOfFuel
  | fuel + 1, ts => do
    let (e, ts) ← primaryP fuel ts
    expLoop fuel e ts

/-- The while-match(Exponent) loop of Parser.exponent. -/
def expLoop : Nat → MathExpression → List Token →
    Except PyError (MathExpression × List Token)
  | 0, _, _ => throw PyError.outOfFuel
  | fuel + 1, acc, ts =>
    match ts with
    | Token.Exponent :: rest => do
      let (r, ts) ← exponentP fuel rest
      let acc ← build_binary_math_object acc Token.Exponent r
      expLoop fuel acc ts
    | _ => pure (acc, ts)

/-- Parser.primary: Numeric gives a Constant, Char gives an Unknown, an
open bracket recurses into expression and requires a matching close
bracket (ValueError otherwise), anything else — including running out of
tokens — is the final ValueError. -/
def primaryP : Nat → List Token → Except PyError (MathExpression × List Token)
  | 0, _ => throw PyError.outOfFuel
  | fuel + 1, ts =>
    match ts with
    | Token.Numeric n :: rest => pure (.Constant n, rest)
    | Token.Char c :: rest => pure (.Unknown c, rest)
    | Token.OpenBracket :: rest => do
      let (e, ts) ← expressionP fuel rest
      match ts with
      | Token.CloseBracket :: ts => pure (e, ts)
      | _ => throw (PyError.valueError "Missing close-bracket character")
    | _ => throw (PyError.valueError "How did we get here")

end

/-- Fuel that always suffices for the recursive-descent parser: each
chain expression-term-factor-exponent-primary costs five units and every
further unit of nesting or looping first consumes a token. -/
def parseFuel (ts : List Token) : Nat :=
  6 * ts.length + 6

/-- Parser(tokens).expression(): parse from the full token list and keep
only the expression, discarding the unconsumed remainder — the source
never checks that the cursor reached the end. -/
def parseTokens (ts : List Token) : Except PyError MathExpression :=
  Prod.fst <$> expressionP (parseFuel ts) ts

/-- parse_text of mathparser.py: scan, then parse. -/
def parse_text (text : String) : Except PyError MathExpression := do
  parseTokens (← scan_tokens text)

/-- Every expression tree has at least one node. -/
theorem exprSize_pos (e : MathExpression) : 1 ≤ exprSize e := by
  cases e <;> simp [exprSize] <;> omega

/-- The additive-identity helper returns, when it returns at all, one of
its two arguments, and only when the other one is Constant 0. -/
theorem sum_simplify_some {a b s : MathExpression}
    (h : sum_simplify a b = some s) :
    (a = MathExpression.Constant 0 ∧ s = b) ∨
      (b = MathExpression.Constant 0 ∧ s = a) := by
  unfold sum_simplify at h
  by_cases h1 : a = MathExpression.Constant 0
  · rw [if_pos h1] at h
    exact Or.inl ⟨h1, (Option.some_injective _ h).symm⟩
  · rw [if_neg h1] at h
    by_cases h2 : b = MathExpression.Constant 0
    · rw [if_pos h2] at h
      exact Or.inr ⟨h2, (Option.some_injective _ h).symm⟩
    · rw [if_neg h2] at h
      exact absurd h (by simp)

/-- One simplification pass never grows the tree: every rewrite rule
either drops a subtree or rebuilds the node from pass-simplified
children. -/
theorem simplifyStep_size_le : ∀ e, exprSize (simplifyStep e) ≤ exprSize e := by
  intro e
  induction e with
  | Constant n => simp [simplifyStep, exprSize]
  | Unknown c => simp [simplifyStep, exprSize]
  | Addition l r ihl ihr =>
    simp only [simplifyStep]
    rcases hs : sum_simplify (simplifyStep l) (simplifyStep r) with _ | s
    · simp only [exprSize]
      omega
    · rcases sum_simplify_some hs with ⟨_, rfl⟩ | ⟨_, rfl⟩ <;>
        simp only [exprSize] <;> omega
  | Subtraction l r ihl ihr =>
    simp only [simplifyStep]
    by_cases h0 : simplifyStep l = simplifyStep r
    · rw [if_pos h0]
      simp only [exprSize]
      omega
    · rw [if_neg h0]
      rcases hs : sum_simplify (simplifyStep l) (simplifyStep r) with _ | s
      · simp only [exprSize]
        omega
      · rcases sum_simplify_some hs with ⟨_, rfl⟩ | ⟨_, rfl⟩ <;>
          simp only [exprSize] <;> omega
  | Product l r ihl ihr =>
    simp only [simplifyStep]
    by_cases h0 : simplifyStep l = MathExpression.Constant 0 ∨
        simplifyStep r = MathExpression.Constant 0
    · rw [if_pos h0]
      simp only [exprSize]
      omega
    · rw [if_neg h0]
      by_cases h1 : simplifyStep l = MathExpression.Constant 1
      · rw [if_pos h1]
        simp only [exprSize]
        omega
      · rw [if_neg h1]
        by_cases h2 : simplifyStep r = MathExpression.Constant 1
        · rw [if_pos h2]
          simp only [exprSize]
          omega
        · rw [if_neg h2]
          simp only [exprSize]
          omega
  | Quotient n d ihn ihd =>
    simp only [simplifyStep]
    by_cases h : n = d
    · rw [if_pos h]
      simp only [exprSize]
      omega
    · rw [if_neg h]
      simp only [exprSize]
      omega
  | Power b p ihb ihp =>
    simp only [simplifyStep]
    by_cases h : p = MathExpression.Constant 1
    · rw [if_pos h]
      simp only [exprSize]
      omega
    · rw [if_neg h]
      simp only [exprSize]
      omega

/-- A pass that preserves the node count did not fire any rule: the tree
is already a fixed point of the one-step pass, because every rule that
changes a node strictly shrinks the tree, so a size-preserving pass must
have rebuilt each node from equal-sized simplified children, which by
induction are the children themselves. -/
theorem simplifyStep_eq_of_size_eq :
    ∀ e, exprSize (simplifyStep e) = exprSize e → simplifyStep e = e := by
  intro e
  induction e with
  | Constant n => intro _; simp [simplifyStep]
  | Unknown c => intro _; simp [simplifyStep]
  | Addition l r ihl ihr =>
    have hl := simplifyStep_size_le l
    have hr := simplifyStep_size_le r
    have hlp := exprSize_pos l
    have hrp := exprSize_pos r
    simp only [simplifyStep]
    rcases hs : sum_simplify (simplifyStep l) (simplifyStep r) with _ | s
    · intro hsz
      simp only [exprSize] at hsz
      have el : exprSize (simplifyStep l) = exprSize l := by omega
      have er : exprSize (simplifyStep r) = exprSize r := by omega
      rw [ihl el, ihr er]
    · intro hsz
      rcases sum_simplify_some hs with ⟨_, rfl⟩ | ⟨_, rfl⟩ <;>
        simp only [exprSize] at hsz <;> omega
  | Subtraction l r ihl ihr =>
    have hl := simplifyStep_size_le l
    have hr := simplifyStep_size_le r
    have hlp := exprSize_pos l
    have hrp := exprSize_pos r
    simp only [simplifyStep]
    by_cases h0 : simplifyStep l = simplifyStep r
    · rw [if_pos h0]
      intro hsz
      simp only [exprSize] at hsz
      omega
    · rw [if_neg h0]
      rcases hs : sum_simplify (simplifyStep l) (simplifyStep r) with _ | s
      · intro hsz
        simp only [exprSize] at hsz
        have el : exprSize (simplifyStep l) = exprSize l := by omega
        have er : exprSize (simplifyStep r) = exprSize r := by omega
        rw [ihl el, ihr er]
      · intro hsz
        rcases sum_simplify_some hs with ⟨_, rfl⟩ | ⟨_, rfl⟩ <;>
          simp only [exprSize] at hsz <;> omega
  | Product l r ihl ihr =>
    have hl := simplifyStep_size_le l
    have hr := simplifyStep_size_le r
    have hlp := exprSize_pos l
    have hrp := exprSize_pos r
    simp only [simplifyStep]
    by_cases h0 : simplifyStep l = MathExpression.Constant 0 ∨
        simplifyStep r = MathExpression.Constant 0
    · rw [if_pos h0]
      intro hsz
      simp only [exprSize] at hsz
      omega
    · rw [if_neg h0]
      by_cases h1 : simplifyStep l = MathExpression.Constant 1
      · rw [if_pos h1]
        intro hsz
        simp only [exprSize] at hsz
        omega
      · rw [if_neg h1]
        by_cases h2 : simplifyStep r = MathExpression.Constant 1
        · rw [if_pos h2]
          intro hsz
          simp only [exprSize] at hsz
          omega
        · rw [if_neg h2]
          intro hsz
          simp only [exprSize] at hsz
          have el : exprSize (simplifyStep l) = exprSize l := by omega
          have er : exprSize (simplifyStep r) = exprSize r := by omega
          rw [ihl el, ihr er]
  | Quotient n d ihn ihd =>
    have hn := simplifyStep_size_le n
    have hd := simplifyStep_size_le d
    have hnp := exprSize_pos n
    have hdp := exprSize_pos d
    simp only [simplifyStep]
    by_cases h : n = d
    · rw [if_pos h]
      intro hsz
      simp only [exprSize] at hsz
      omega
    · rw [if_neg h]
      intro hsz
      simp only [exprSize] at hsz
      have en : exprSize (simplifyStep n) = exprSize n := by omega
      have ed : exprSize (simplifyStep d) = exprSize d := by omega
      rw [ihn en, ihd ed]
  | Power b p ihb ihp =>
    have hb := simplifyStep_size_le b
    have hpp := exprSize_pos p
    simp only [simplifyStep]
    by_cases h : p = MathExpression.Constant 1
    · rw [if_pos h]
      intro hsz
      simp only [exprSize] at hsz
      omega
    · rw [if_neg h]
      intro hsz
      simp only [exprSize] at hsz
      rw [ihb (by omega)]

/-- A non-trivial pass strictly shrinks the tree. -/
theorem simplifyStep_size_lt (e : MathExpression) (h : simplifyStep e ≠ e) :
    exprSize (simplifyStep e) < exprSize e := by
  rcases Nat.lt_or_ge (exprSize (simplifyStep e)) (exprSize e) with hlt | hge
  · exact hlt
  · have hle := simplifyStep_size_le e
    exact absurd (simplifyStep_eq_of_size_eq e (Nat.le_antisymm hle hge)) h

/-- With fuel at least the size of its first argument, the while-loop of
simplify stops at a tree the one-step pass leaves unchanged. -/
theorem simplifyLoop_fix :
    ∀ n a, exprSize a ≤ n →
      simplifyStep (simplifyLoop n a (simplifyStep a)) =
        simplifyLoop n a (simplifyStep a) := by
  intro n
  induction n with
  | zero =>
    intro a ha
    exact absurd ha (by have := exprSize_pos a; omega)
  | succ n ih =>
    intro a ha
    by_cases h : a = simplifyStep a
    · have hloop : simplifyLoop (n + 1) a (simplifyStep a) = a := by
        show (if a = simplifyStep a then a else _) = a
        rw [if_pos h]
      rw [hloop, ← h]
    · have hlt := simplifyStep_size_lt a (fun hh => h hh.symm)
      simp only [simplifyLoop, if_neg h]
      exact ih (simplifyStep a) (by omega)

/-- The result of simplify is a fixed point of the one-step pass. -/
theorem simplify_fix (e : MathExpression) :
    simplifyStep (simplify e) = simplify e :=
  simplifyLoop_fix (exprSize e) (simplifyStep e) (simplifyStep_size_le e)

/-- simplify leaves a one-step fixed point untouched. -/
theorem simplify_of_fix (r : MathExpression) (h : simplifyStep r = r) :
    simplify r = r := by
  show simplifyLoop (exprSize r) (simplifyStep r) (simplifyStep (simplifyStep r)) = r
  rw [h, h]
  obtain ⟨m, hm⟩ : ∃ m, exprSize r = m + 1 :=
    ⟨exprSize r - 1, by have := exprSize_pos r; omega⟩
  rw [hm]
  show (if r = r then r else simplifyLoop m r (simplifyStep r)) = r
  rw [if_pos rfl]

/-- Decidable equality of Except results (component-wise). -/
instance exceptDecidableEq {ε α : Type} [DecidableEq ε] [DecidableEq α] :
    DecidableEq (Except ε α) := fun x y =>
  match x, y with
  | Except.ok a, Except.ok b =>
    if h : a = b then Decidable.isTrue (by rw [h])
    else Decidable.isFalse (by intro hh; cases hh; exact h rfl)
  | Except.error e, Except.error f =>
    if h : e = f then Decidable.isTrue (by rw [h])
    else Decidable.isFalse (by intro hh; cases hh; exact h rfl)
  | Except.ok _, Except.error _ => Decidable.isFalse (by intro hh; cases hh)
  | Except.error _, Except.ok _ => Decidable.isFalse (by intro hh; cases hh)

/-- A letter is not a digit (ASCII ranges are disjoint). -/
theorem isDigit_false_of_isAlpha (c : Char) (h : c.isAlpha = true) :
    c.isDigit = false := by
  simp [Char.isAlpha, Char.isUpper, Char.isLower, Char.isDigit] at *
  intro h3
  have g1 : (48 : UInt32).toNat ≤ c.val.toNat := h3
  show (57 : UInt32).toNat < c.val.toNat
  rcases h with ⟨h1, h2⟩ | ⟨h1, h2⟩
  · have g2 : (65 : UInt32).toNat ≤ c.val.toNat := h1
    have g3 : c.val.toNat ≤ (90 : UInt32).toNat := h2
    norm_num at g2 g3 ⊢
    omega
  · have g2 : (97 : UInt32).toNat ≤ c.val.toNat := h1
    have g3 : c.val.toNat ≤ (122 : UInt32).toNat := h2
    norm_num at g2 g3 ⊢
    omega

/-- A letter is not numeric for the scanner and is none of the
single-character operator or bracket symbols. -/
theorem isAlpha_scan_facts (c : Char) (h : c.isAlpha = true) :
    pyIsNumeric c = false ∧ c ≠ '(' ∧ c ≠ ')' ∧ c ≠ '+' ∧ c ≠ '-' ∧
      c ≠ '*' ∧ c ≠ '/' ∧ c ≠ '^' := by
  refine ⟨?_, ?_, ?_, ?_, ?_, ?_, ?_, ?_⟩
  · have hd := isDigit_false_of_isAlpha c h
    simp only [pyIsNumeric, hd, Bool.false_or]
    by_contra hc
    rw [Bool.not_eq_false] at hc
    have hmem := List.mem_of_elem_eq_true hc
    simp only [List.mem_cons, List.not_mem_nil, or_false] at hmem
    rcases hmem with rfl | rfl | rfl | rfl | rfl | rfl | rfl | rfl | rfl | rfl <;>
      exact absurd h (by decide)
  · intro hc; rw [hc] at h; exact absurd h (by decide)
  · intro hc; rw [hc] at h; exact absurd h (by decide)
  · intro hc; rw [hc] at h; exact absurd h (by decide)
  · intro hc; rw [hc] at h; exact absurd h (by decide)
  · intro hc; rw [hc] at h; exact absurd h (by decide)
  · intro hc; rw [hc] at h; exact absurd h (by decide)
  · intro hc; rw [hc] at h; exact absurd h (by decide)

/-- The numeric runs that the scanner's number() will consume, in input
order: the same left-to-right walk as scanAux, collecting each maximal
numeric-or-dot run started by a numeric character (statement-side helper
for the scanner totality claim; the fuel mirrors scanAux). -/
def numericRuns : Nat → List Char → List (List Char)
  | 0, _ => []
  | _, [] => []
  | fuel + 1, c :: rest =>
    if c = '(' then numericRuns fuel rest
    else if c = ')' then numericRuns fuel rest
    else if c = '+' then numericRuns fuel rest
    else if c = '-' then numericRuns fuel rest
    else if c = '*' then numericRuns fuel rest
    else if c = '/' then numericRuns fuel rest
    else if c = '^' then numericRuns fuel rest
    else if pyIsNumeric c then
      (c :: rest.takeWhile numDot) :: numericRuns fuel (rest.dropWhile numDot)
    else numericRuns fuel rest

/-- If every numeric run of the input is a valid float literal, the
scanning loop cannot fail: every other branch of scan_token only skips or
emits a token. -/
theorem scanAux_ok_of_good_runs :
    ∀ fuel cs, cs.length < fuel →
      (∀ r ∈ numericRuns fuel cs, (pyFloat r).isSome = true) →
      ∃ ts, scanAux fuel cs = Except.ok ts := by
  intro fuel
  induction fuel with
  | zero =>
    intro cs hlen _
    exact absurd hlen (Nat.not_lt_zero _)
  | succ fuel ih =>
    intro cs hlen hruns
    cases cs with
    | nil => exact ⟨[], rfl⟩
    | cons c rest =>
      have hlen' : rest.length < fuel := by
        simp only [List.length_cons] at hlen
        omega
      simp only [scanAux]
      by_cases h1 : c = '('
      · have hrw : numericRuns (fuel + 1) (c :: rest) = numericRuns fuel rest := by
          simp [numericRuns, h1]
        obtain ⟨ts, hts⟩ := ih rest hlen' (fun r hr => hruns r (hrw ▸ hr))
        exact ⟨Token.OpenBracket :: ts, by rw [if_pos h1, hts]; rfl⟩
      rw [if_neg h1]
      by_cases h2 : c = ')'
      · have hrw : numericRuns (fuel + 1) (c :: rest) = numericRuns fuel rest := by
          simp [numericRuns, h1, h2]
        obtain ⟨ts, hts⟩ := ih rest hlen' (fun r hr => hruns r (hrw ▸ hr))
        exact ⟨Token.CloseBracket :: ts, by rw [if_pos h2, hts]; rfl⟩
      rw [if_neg h2]
      by_cases h3 : c = '+'
      · have hrw : numericRuns (fuel + 1) (c :: rest) = numericRuns fuel rest := by
          simp [numericRuns, h1, h2, h3]
        obtain ⟨ts, hts⟩ := ih rest hlen' (fun r hr => hruns r (hrw ▸ hr))
        exact ⟨Token.Plus :: ts, by rw [if_pos h3, hts]; rfl⟩
      rw [if_neg h3]
      by_cases h4 : c = '-'
      · have hrw : numericRuns (fuel + 1) (c :: rest) = numericRuns fuel rest := by
          simp [numericRuns, h1, h2, h3, h4]
        obtain ⟨ts, hts⟩ := ih rest hlen' (fun r hr => hruns r (hrw ▸ hr))
        exact ⟨Token.Minus :: ts, by rw [if_pos h4, hts]; rfl⟩
      rw [if_neg h4]
      by_cases h5 : c = '*'
      · have hrw : numericRuns (fuel + 1) (c :: rest) = numericRuns fuel rest := by
          simp [numericRuns, h1, h2, h3, h4, h5]
        obtain ⟨ts, hts⟩ := ih rest hlen' (fun r hr => hruns r (hrw ▸ hr))
        exact ⟨Token.Multiply :: ts, by rw [if_pos h5, hts]; rfl⟩
      rw [if_neg h5]
      by_cases h6 : c = '/'
      · have hrw : numericRuns (fuel + 1) (c :: rest) = numericRuns fuel rest := by
          simp [numericRuns, h1, h2, h3, h4, h5, h6]
        obtain ⟨ts, hts⟩ := ih rest hlen' (fun r hr => hruns r (hrw ▸ hr))
        exact ⟨Token.Divide :: ts, by rw [if_pos h6, hts]; rfl⟩
      rw [if_neg h6]
      by_cases h7 : c = '^'
      · have hrw : numericRuns (fuel + 1) (c :: rest) = numericRuns fuel rest := by
          simp [numericRuns, h1, h2, h3, h4, h5, h6, h7]
        obtain ⟨ts, hts⟩ := ih rest hlen' (fun r hr => hruns r (hrw ▸ hr))
        exact ⟨Token.Exponent :: ts, by rw [if_pos h7, hts]; rfl⟩
      rw [if_neg h7]
      by_cases h8 : pyIsNumeric c = true
      · have hrw : numericRuns (fuel + 1) (c :: rest) =
            (c :: rest.takeWhile numDot) :: numericRuns fuel (rest.dropWhile numDot) := by
          simp [numericRuns, h1, h2, h3, h4, h5, h6, h7, h8]
        have hhead : (pyFloat (c :: rest.takeWhile numDot)).isSome = true :=
          hruns _ (hrw ▸ List.mem_cons_self _ _)
        obtain ⟨q, hq⟩ := Option.isSome_iff_exists.mp hhead
        have hlen2 : (rest.dropWhile numDot).length < fuel :=
          Nat.lt_of_le_of_lt (dropWhile_length_le _ _) hlen'
        have hcond : ∀ r ∈ numericRuns fuel (rest.dropWhile numDot),
            (pyFloat r).isSome = true :=
          fun r hr => hruns r (hrw ▸ List.mem_cons_of_mem _ hr)
        obtain ⟨ts, hts⟩ := ih (rest.dropWhile numDot) hlen2 hcond
        refine ⟨Token.Numeric q :: ts, ?_⟩
        rw [if_pos h8, hq, hts]
        rfl
      rw [if_neg h8]
      by_cases h9 : c.isAlpha = true
      · have hrw : numericRuns (fuel + 1) (c :: rest) = numericRuns fuel rest := by
          simp [numericRuns, h1, h2, h3, h4, h5, h6, h7, h8]
        obtain ⟨ts, hts⟩ := ih rest hlen' (fun r hr => hruns r (hrw ▸ hr))
        exact ⟨Token.Char (String.mk [c]) :: ts, by rw [if_pos h9, hts]; rfl⟩
      · have hrw : numericRuns (fuel + 1) (c :: rest) = numericRuns fuel rest := by
          simp [numericRuns, h1, h2, h3, h4, h5, h6, h7, h8]
        obtain ⟨ts, hts⟩ := ih rest hlen' (fun r hr => hruns r (hrw ▸ hr))
        exact ⟨ts, by rw [if_neg h9, hts]⟩

/-- The insertion pass as the spec words it: walk adjacent pairs and put
a Multiply token between the two tokens of every matching pair
(statement-side reformulation compared against the source's
previous-token loop). -/
def specInsert : List Token → List Token
  | [] => []
  | [a] => [a]
  | a :: b :: rest =>
    a :: (if shouldInsertMul (some a) b then Token.Multiply :: specInsert (b :: rest)
          else specInsert (b :: rest))

/-- The previous-token loop on a nonempty list is the adjacent-pair walk. -/
theorem specInsert_cons :
    ∀ (rest : List Token) (a : Token),
      specInsert (a :: rest) = a :: insertPassGo (some a) rest
  | [], _ => rfl
  | b :: rest', a => by
    have ih := specInsert_cons rest' b
    simp only [specInsert, insertPassGo]
    by_cases hp : shouldInsertMul (some a) b = true
    · rw [if_pos hp, if_pos hp, ih]
      rfl
    · rw [if_neg hp, if_neg hp, ih]
      rfl

/-- No token is inserted before the first token (prev starts as None). -/
theorem shouldInsertMul_none (t : Token) : shouldInsertMul none t = false := by
  cases t <;> rfl

/-- The source's insertion pass equals the adjacent-pair formulation. -/
theorem insertPass_eq_specInsert : ∀ ts : List Token, insertPass ts = specInsert ts
  | [] => rfl
  | t :: rest => by
    show insertPassGo none (t :: rest) = specInsert (t :: rest)
    simp only [insertPassGo, shouldInsertMul_none, if_neg]
    rw [specInsert_cons]
    rfl

/-- A parser primary atom: the two token kinds primary() accepts without
recursion, with the expression each one builds. -/
def primaryAtom : Token → Option MathExpression
  | Token.Numeric q => some (MathExpression.Constant q)
  | Token.Char s => some (MathExpression.Unknown s)
  | _ => none

/-- primaryAtom succeeds exactly on Numeric and Char tokens. -/
theorem primaryAtom_some {t : Token} {e : MathExpression}
    (h : primaryAtom t = some e) :
    (∃ q, t = Token.Numeric q ∧ e = MathExpression.Constant q) ∨
      (∃ s, t = Token.Char s ∧ e = MathExpression.Unknown s) := by
  cases t with
  | Numeric q =>
    simp only [primaryAtom, Option.some.injEq] at h
    exact Or.inl ⟨q, rfl, h.symm⟩
  | Char s =>
    simp only [primaryAtom, Option.some.injEq] at h
    exact Or.inr ⟨s, rfl, h.symm⟩
  | Plus => exact Option.noConfusion h
  | Minus => exact Option.noConfusion h
  | Multiply => exact Option.noConfusion h
  | Divide => exact Option.noConfusion h
  | Exponent => exact Option.noConfusion h
  | OpenBracket => exact Option.noConfusion h
  | CloseBracket => exact Option.noConfusion h

/-- simplifyStep iterated from any tree reaches a fixed point within the
size of the tree many steps. -/
theorem simplifyStep_iterate_reaches_fix :
    ∀ k e, exprSize e ≤ k → ∃ n, simplifyStep^[n + 1] e = simplifyStep^[n] e := by
  intro k
  induction k with
  | zero =>
    intro e h
    exact absurd h (by have := exprSize_pos e; omega)
  | succ k ih =>
    intro e h
    by_cases hs : simplifyStep e = e
    · exact ⟨0, by simpa using hs⟩
    · obtain ⟨n, hn⟩ := ih (simplifyStep e) (by have := simplifyStep_size_lt e hs; omega)
      refine ⟨n + 1, ?_⟩
      rw [Function.iterate_succ_apply, Function.iterate_succ_apply]
      exact hn

/-- C1 (counterexample): evaluating Quotient(Constant 1, Constant 0)
under the empty substitution raises ZeroDivisionError — it does not
return any value, infinite or otherwise, so the claimed floating-point
behavior is false on the code (Python number division by zero raises). -/
theorem c1_counterexample :
    evaluate (MathExpression.Quotient (MathExpression.Constant 1)
        (MathExpression.Constant 0)) (fun _ => none) =
      Except.error PyError.zeroDivisionError := rfl

/-- C1 (amended): for every expression tree whose denominator evaluates
to 0 under a substitution (and whose numerator evaluates without error),
evaluate raises ZeroDivisionError instead of returning a value; in
particular evaluate(Quotient(Constant 1, Constant 0), {}) raises. -/
theorem c1_quotient_zero_denominator_raises
    (n d : MathExpression) (m : String → Option Rat) (vn : Rat)
    (hn : evaluate n m = Except.ok vn) (hd : evaluate d m = Except.ok 0) :
    evaluate (MathExpression.Quotient n d) m =
      Except.error PyError.zeroDivisionError := by
  simp only [evaluate, hn, hd]
  rfl

/-- C1 (witness): the amended theorem applied at
Quotient(Constant 1, Constant 0) under the empty substitution. -/
theorem c1_quotient_zero_denominator_raises_witness :
    evaluate (MathExpression.Constant 1) (fun _ => none) = Except.ok 1 ∧
      evaluate (MathExpression.Constant 0) (fun _ => none) = Except.ok 0 ∧
      evaluate (MathExpression.Quotient (MathExpression.Constant 1)
          (MathExpression.Constant 0)) (fun _ => none) =
        Except.error PyError.zeroDivisionError :=
  ⟨rfl, rfl,
    c1_quotient_zero_denominator_raises (MathExpression.Constant 1)
      (MathExpression.Constant 0) (fun _ => none) 1 rfl rfl⟩

/-- C2 (counterexample): the scanner is not total — on "1.2.3" the
numeric run "1.2.3" fails float conversion and scan_tokens raises
ValueError, against the claim that scanning never throws. -/
theorem c2_counterexample :
    scan_tokens "1.2.3" =
      Except.error (PyError.valueError "could not convert string to float") := rfl

/-- C2 (amended): for ASCII input — where the scanner model is exactly
faithful to Python's character classification — scanning never throws
provided every numeric run of the input is a valid float literal (at
most one decimal point); unrecognized characters are still skipped with
only a diagnostic. For arbitrary input, scanning can raise ValueError
from float(): on a malformed run such as "1.2.3", and on non-ASCII
isnumeric characters such as the vulgar fraction one-half, whose float()
conversion also fails. -/
theorem c2_scan_total_on_wellformed_numerals (s : String)
    (_hascii : ∀ c ∈ s.data, c.toNat < 128)
    (h : ∀ r ∈ numericRuns (s.data.length + 1) s.data, (pyFloat r).isSome = true) :
    ∃ ts, scan_tokens s = Except.ok ts := by
  obtain ⟨ts, hts⟩ :=
    scanAux_ok_of_good_runs (s.data.length + 1) s.data (Nat.lt_succ_self _) h
  exact ⟨insertPass ts, by rw [scan_tokens, hts]; rfl⟩

/-- C2 (witness): the amended theorem applied to a concrete ASCII input
exercising every token class, whitespace, an unknown character and a
well-formed decimal numeral. -/
theorem c2_scan_total_on_wellformed_numerals_witness :
    (∀ c ∈ "2x + (3*4) / 1.5 ?".data, c.toNat < 128) ∧
      (∀ r ∈ numericRuns ("2x + (3*4) / 1.5 ?".data.length + 1) "2x + (3*4) / 1.5 ?".data,
        (pyFloat r).isSome = true) ∧
      ∃ ts, scan_tokens "2x + (3*4) / 1.5 ?" = Except.ok ts :=
  ⟨by decide, by decide,
    c2_scan_total_on_wellformed_numerals "2x + (3*4) / 1.5 ?" (by decide) (by decide)⟩

/-- C3 (counterexample): scanning "ab" yields two Char tokens, one per
letter, not the single Char("ab") token the claim describes. -/
theorem c3_counterexample :
    scan_tokens "ab" = Except.ok [Token.Char "a", Token.Char "b"] ∧
      scan_tokens "ab" ≠ Except.ok [Token.Char "ab"] :=
  ⟨rfl, by decide⟩

/-- C3 (amended): when the scanner meets an ASCII letter it emits a Char
token holding exactly that single letter and continues with the rest of
the input; a run of adjacent letters therefore becomes one Char token per
letter (with no Multiply inserted between them), so "ab" scans to
Char("a"), Char("b"). -/
theorem c3_letter_emits_single_char :
    (∀ (c : Char) (cs : List Char) (fuel : Nat), c.isAlpha = true →
      scanAux (fuel + 1) (c :: cs) =
        (fun ts => Token.Char (String.mk [c]) :: ts) <$> scanAux fuel cs) ∧
      (∀ s t : String,
        shouldInsertMul (some (Token.Char s)) (Token.Char t) = false) ∧
      scan_tokens "ab" = Except.ok [Token.Char "a", Token.Char "b"] := by
  refine ⟨?_, fun s t => rfl, rfl⟩
  intro c cs fuel h
  obtain ⟨hn, h1, h2, h3, h4, h5, h6, h7⟩ := isAlpha_scan_facts c h
  simp [scanAux, h1, h2, h3, h4, h5, h6, h7, hn, h]

/-- C3 (witness): the amended theorem applied at the letter a followed
by the letter b. -/
theorem c3_letter_emits_single_char_witness :
    Char.isAlpha 'a' = true ∧
      scanAux 2 ['a', 'b'] =
        (fun ts => Token.Char "a" :: ts) <$> scanAux 1 ['b'] :=
  ⟨by decide, c3_letter_emits_single_char.1 'a' ['b'] 1 (by decide)⟩

/-- C4 (counterexample): the format/parse round trip does not preserve
evaluation: Product(Constant 2, Constant 3) formats to "2•3", the
scanner skips the bullet, the parser returns Constant 2, and the
re-parsed tree evaluates to 2 while the original evaluates to 6. -/
theorem c4_counterexample :
    format (MathExpression.Product (MathExpression.Constant 2)
        (MathExpression.Constant 3)) none = "2•3" ∧
      parse_text "2•3" = Except.ok (MathExpression.Constant 2) ∧
      evaluate (MathExpression.Constant 2) (fun _ => none) = Except.ok 2 ∧
      evaluate (MathExpression.Product (MathExpression.Constant 2)
          (MathExpression.Constant 3)) (fun _ => none) = Except.ok 6 ∧
      (2 : Rat) ≠ 6 := by
  refine ⟨rfl, rfl, rfl, ?_, by norm_num⟩
  show Except.ok ((2 : Rat) * 3) = Except.ok 6
  norm_num

/-- C4 (amended): parseText(format(e)).evaluate(m) = e.evaluate(m) holds
only for trees whose formatted text re-scans to the same structure — for
example Addition(Unknown x, Constant 1) and Quotient(Unknown x,
Constant 2), for every substitution value of x. It fails in general:
Product formats with the bullet separator that the scanner skips
(see the counterexample), and superscript exponents and multi-letter
unknown names also fail to re-scan. -/
theorem c4_roundtrip_eval_for_rescannable_trees :
    (∀ v : Rat,
      (parse_text (format (MathExpression.Addition (MathExpression.Unknown "x")
            (MathExpression.Constant 1)) none)).bind
          (fun t => evaluate t (fun s => if s = "x" then some v else none)) =
        evaluate (MathExpression.Addition (MathExpression.Unknown "x")
            (MathExpression.Constant 1))
          (fun s => if s = "x" then some v else none)) ∧
    (∀ v : Rat,
      (parse_text (format (MathExpression.Quotient (MathExpression.Unknown "x")
            (MathExpression.Constant 2)) none)).bind
          (fun t => evaluate t (fun s => if s = "x" then some v else none)) =
        evaluate (MathExpression.Quotient (MathExpression.Unknown "x")
            (MathExpression.Constant 2))
          (fun s => if s = "x" then some v else none)) :=
  ⟨fun _ => rfl, fun _ => rfl⟩

/-- C5: the parser never demands that the whole token sequence be
consumed: whatever expression the expression rule returns is the final
answer, the unconsumed remainder is silently dropped; in particular both
"1)" and "1 2" parse to Constant 1 with no error. -/
theorem c5_parser_ignores_trailing_tokens :
    (∀ (ts : List Token) (e : MathExpression) (rest : List Token),
      expressionP (parseFuel ts) ts = Except.ok (e, rest) →
      parseTokens ts = Except.ok e) ∧
      parse_text "1)" = Except.ok (MathExpression.Constant 1) ∧
      parse_text "1 2" = Except.ok (MathExpression.Constant 1) := by
  refine ⟨?_, rfl, rfl⟩
  intro ts e rest h
  rw [parseTokens, h]
  rfl

/-- C5 (witness): the general part applied to the token list of "1)",
whose expression parse consumes only the Numeric token. -/
theorem c5_parser_ignores_trailing_tokens_witness :
    expressionP (parseFuel [Token.Numeric 1, Token.CloseBracket])
        [Token.Numeric 1, Token.CloseBracket] =
      Except.ok (MathExpression.Constant 1, [Token.CloseBracket]) ∧
      parseTokens [Token.Numeric 1, Token.CloseBracket] =
        Except.ok (MathExpression.Constant 1) :=
  ⟨rfl, c5_parser_ignores_trailing_tokens.1 _ _ _ rfl⟩

/-- C6: the insertion pass puts a synthetic Multiply between an adjacent
token pair exactly when the pair is (Numeric, Char), (Numeric,
OpenBracket), (Char, OpenBracket), (CloseBracket, Char) or
(CloseBracket, OpenBracket) and nowhere else; consequently
parseText("2x") evaluates to 10 under x := 5. -/
theorem c6_implicit_multiplication_insertion :
    (∀ ts : List Token, insertPass ts = specInsert ts) ∧
    (∀ a b : Token, shouldInsertMul (some a) b = true ↔
      ((∃ q, a = Token.Numeric q) ∧ (∃ s, b = Token.Char s)) ∨
        ((∃ q, a = Token.Numeric q) ∧ b = Token.OpenBracket) ∨
        ((∃ s, a = Token.Char s) ∧ b = Token.OpenBracket) ∨
        (a = Token.CloseBracket ∧ (∃ s, b = Token.Char s)) ∨
        (a = Token.CloseBracket ∧ b = Token.OpenBracket)) ∧
    (parse_text "2x").bind
        (fun e => evaluate e (fun s => if s = "x" then some 5 else none)) =
      Except.ok 10 := by
  refine ⟨insertPass_eq_specInsert, ?_, ?_⟩
  · intro a b
    cases a <;> cases b <;> simp [shouldInsertMul]
  · show Except.ok ((2 : Rat) * 5) = Except.ok 10
    norm_num

/-- C6 (witness): the pair characterization applied at the concrete pair
(Numeric 2, Char x). -/
theorem c6_implicit_multiplication_insertion_witness :
    shouldInsertMul (some (Token.Numeric 2)) (Token.Char "x") = true :=
  (c6_implicit_multiplication_insertion.2.1 (Token.Numeric 2)
      (Token.Char "x")).mpr (Or.inl ⟨⟨2, rfl⟩, ⟨"x", rfl⟩⟩)

/-- On a Power whose exponent is a Constant and whose base is not, the
source's match falls to the power-rule arm, which sequences the recursive
differentiation of the base. -/
theorem differentiate_power_nonconst (b : MathExpression) (n : Rat)
    (hb : ∀ a : Rat, b ≠ MathExpression.Constant a) :
    differentiate (MathExpression.Power b (MathExpression.Constant n)) =
      Except.bind (differentiate b) (fun db => pure
        (MathExpression.Product
          (MathExpression.Product (MathExpression.Constant n)
            (MathExpression.Power b (MathExpression.Constant (n - 1)))) db)) := by
  cases b with
  | Constant a => exact absurd rfl (hb a)
  | Unknown c => rfl
  | Addition l r => rfl
  | Subtraction l r => rfl
  | Product l r => rfl
  | Quotient nu de => rfl
  | Power ba pa => rfl

/-- C7: differentiate on Power(b, p) returns Constant 0 when b and p are
both Constants; when only the exponent is a Constant n it returns the
power-rule product n * b ^ (n - 1) * differentiate(b), grouped as the
source builds it; and it raises NotImplementedError (the spec's
UnsupportedOperation) whenever the exponent is not a Constant. -/
theorem c7_power_differentiate (b p : MathExpression) :
    ((∃ a, b = MathExpression.Constant a) → (∃ n, p = MathExpression.Constant n) →
      differentiate (MathExpression.Power b p) = Except.ok (MathExpression.Constant 0)) ∧
    (∀ n : Rat, p = MathExpression.Constant n →
      (∀ a : Rat, b ≠ MathExpression.Constant a) →
      differentiate (MathExpression.Power b p) =
        (differentiate b).map (fun db =>
          MathExpression.Product
            (MathExpression.Product (MathExpression.Constant n)
              (MathExpression.Power b (MathExpression.Constant (n - 1)))) db)) ∧
    ((∀ n : Rat, p ≠ MathExpression.Constant n) →
      differentiate (MathExpression.Power b p) =
        Except.error PyError.notImplementedError) := by
  refine ⟨?_, ?_, ?_⟩
  · rintro ⟨a, rfl⟩ ⟨n, rfl⟩
    rfl
  · rintro n rfl hb
    rw [differentiate_power_nonconst b n hb]
    cases differentiate b <;> rfl
  · intro hp
    cases p with
    | Constant n => exact absurd rfl (hp n)
    | Unknown c => cases b <;> rfl
    | Addition l r => cases b <;> rfl
    | Subtraction l r => cases b <;> rfl
    | Product l r => cases b <;> rfl
    | Quotient nu de => cases b <;> rfl
    | Power ba pa => cases b <;> rfl

/-- C7 (witness): the power rule applied at Power(Unknown x, Constant 2)
and the failure case at Power(Unknown x, Unknown x). -/
theorem c7_power_differentiate_witness :
    differentiate (MathExpression.Power (MathExpression.Unknown "x")
        (MathExpression.Constant 2)) =
      (differentiate (MathExpression.Unknown "x")).map (fun db =>
        MathExpression.Product
          (MathExpression.Product (MathExpression.Constant 2)
            (MathExpression.Power (MathExpression.Unknown "x")
              (MathExpression.Constant (2 - 1)))) db) ∧
      differentiate (MathExpression.Power (MathExpression.Unknown "x")
          (MathExpression.Unknown "x")) =
        Except.error PyError.notImplementedError :=
  ⟨(c7_power_differentiate (MathExpression.Unknown "x")
      (MathExpression.Constant 2)).2.1 2 rfl (fun _ h => nomatch h),
    (c7_power_differentiate (MathExpression.Unknown "x")
      (MathExpression.Unknown "x")).2.2 (fun _ h => nomatch h)⟩

/-- C8: the exponent rule parses right-associatively: for any primary
atoms a, b, c the token sequence a ^ b ^ c parses to
Power(a, Power(b, c)); in particular "2^3^2" parses as 2^(3^2). -/
theorem c8_exponent_right_associative :
    (∀ (a b c : Token) (ea eb ec : MathExpression),
      primaryAtom a = some ea → primaryAtom b = some eb →
      primaryAtom c = some ec →
      parseTokens [a, Token.Exponent, b, Token.Exponent, c] =
        Except.ok (MathExpression.Power ea (MathExpression.Power eb ec))) ∧
      parse_text "2^3^2" =
        Except.ok (MathExpression.Power (MathExpression.Constant 2)
          (MathExpression.Power (MathExpression.Constant 3)
            (MathExpression.Constant 2))) := by
  refine ⟨?_, rfl⟩
  intro a b c ea eb ec ha hb hc
  rcases primaryAtom_some ha with ⟨q1, rfl, rfl⟩ | ⟨s1, rfl, rfl⟩ <;>
    rcases primaryAtom_some hb with ⟨q2, rfl, rfl⟩ | ⟨s2, rfl, rfl⟩ <;>
    rcases primaryAtom_some hc with ⟨q3, rfl, rfl⟩ | ⟨s3, rfl, rfl⟩ <;>
    rfl

/-- C8 (witness): the general right-associativity theorem applied to the
token list of "2^3^2". -/
theorem c8_exponent_right_associative_witness :
    primaryAtom (Token.Numeric 2) = some (MathExpression.Constant 2) ∧
      parseTokens [Token.Numeric 2, Token.Exponent, Token.Numeric 3,
          Token.Exponent, Token.Numeric 2] =
        Except.ok (MathExpression.Power (MathExpression.Constant 2)
          (MathExpression.Power (MathExpression.Constant 3)
            (MathExpression.Constant 2))) :=
  ⟨rfl, c8_exponent_right_associative.1 _ _ _ _ _ _ rfl rfl rfl⟩

/-- C9: simplify is idempotent — simplify returns a fixed point of the
one-step pass, and simplify leaves any such fixed point unchanged. -/
theorem c9_simplify_idempotent (e : MathExpression) :
    simplify (simplify e) = simplify e :=
  simplify_of_fix (simplify e) (simplify_fix e)

/-- C10: the simplify fixed-point loop terminates on every tree: one
rewriting pass either leaves the tree unchanged or strictly shrinks it,
iterating the pass reaches a fixed point in finitely many steps, and the
tree simplify returns is unchanged by one more pass. -/
theorem c10_simplify_fixed_point_terminates :
    (∀ e : MathExpression,
      simplifyStep e = e ∨ exprSize (simplifyStep e) < exprSize e) ∧
    (∀ e : MathExpression, ∃ n, simplifyStep^[n + 1] e = simplifyStep^[n] e) ∧
    (∀ e : MathExpression, simplifyStep (simplify e) = simplify e) := by
  refine ⟨?_, ?_, simplify_fix⟩
  · intro e
    by_cases h : simplifyStep e = e
    · exact Or.inl h
    · exact Or.inr (simplifyStep_size_lt e h)
  · intro e
    exact simplifyStep_iterate_reaches_fix (exprSize e) e (Nat.le_refl _)
